import Mathlib

/-!
Verification of the configuration-merge, validation, stream-consumption and
export pipeline of `tools/search_tweets.py`.

Python values appearing in configuration dictionaries and tweet records are
modelled by the `Json` type below (the data model of the program: strings,
integers, booleans, null, arrays and nested string-keyed mappings).  Python
dictionaries are modelled as insertion-ordered association lists
(`Dict := List (String × Json)`); `lookup` is key lookup (first binding wins,
matching a Python dict, whose keys are unique).
-/

inductive Json where
  | null : Json
  | bool (b : Bool) : Json
  | num (n : Int) : Json
  | str (s : String) : Json
  | arr (xs : List Json) : Json
  | obj (kvs : List (String × Json)) : Json

/-- `v is None` test on a Python value. -/
def Json.isNull : Json → Bool
  | .null => true
  | _ => false

/-- A Python dictionary: insertion-ordered bindings of string keys to values. -/
abbrev Dict := List (String × Json)

/-- Key lookup in a dictionary (`d[k]` / `d.get(k)`): first binding wins. -/
def lookup : Dict → String → Option Json
  | [], _ => none
  | (k', v) :: d, k => if k' = k then some v else lookup d k

/-- `d.keys()`: the keys of the dictionary, in insertion order. -/
def keys (d : Dict) : List String := d.map Prod.fst

/-- `k in d`: key membership test. -/
def containsKey (d : Dict) (k : String) : Bool := (lookup d k).isSome

/-- The fixed sensitive-key denylist `sens_args` of `_filter_sensitive_args`. -/
def sens_args : List String := ["password", "consumer_key", "consumer_secret", "bearer_token"]

/-- `_filter_sensitive_args(dict_)`:
`{k: v for k, v in dict_.items() if k not in sens_args}`. -/
def filter_sensitive_args (d : Dict) : Dict :=
  d.filter (fun kv => !(sens_args.contains kv.1))

/-- `dict_filter = lambda x: {k: v for k, v in x.items() if v is not None}`:
drop the bindings whose value is null. -/
def dict_filter (d : Dict) : Dict := d.filter (fun kv => !(Json.isNull kv.2))

/-- `merged = d1.copy(); merged.update(d2)`: bindings of `d2` replace the values
of the same keys in `d1` (keeping their position), and keys new in `d2` are
appended in order.  This is the one-step overlay of the configuration merge. -/
def overlay (d1 d2 : Dict) : Dict :=
  d1.map (fun kv =>
      match lookup d2 kv.1 with
      | some v => (kv.1, v)
      | none => kv)
    ++ d2.filter (fun kv => !(containsKey d1 kv.1))

/-- Modelled from the spec: `merge_dicts` is imported from the `searchtweets`
package, whose sources are not part of this tree; per the spec the three
present-only sources are combined with precedence cli over credentials over
file: "apply file_cfg first, then overlay creds_cfg, then overlay cli_cfg, so
that later overlays win on key collision".  The call in `main` is
`merge_dicts(dict_filter(configfile_dict), dict_filter(creds_dict), dict_filter(args_dict))`. -/
def merge_dicts (file_cfg creds_cfg cli_cfg : Dict) : Dict :=
  overlay (overlay (dict_filter file_cfg) (dict_filter creds_cfg)) (dict_filter cli_cfg)

/-- `REQUIRED_KEYS = {"pt_rule", "endpoint"}` (as an explicit list of the two
elements of the Python set literal). -/
def REQUIRED_KEYS : List String := ["pt_rule", "endpoint"]

/-- The required keys present in the merged config:
`dict_filter(config_dict).keys() & REQUIRED_KEYS`. -/
def presentRequired (d : Dict) : List String :=
  REQUIRED_KEYS.filter (fun k => containsKey (dict_filter d) k)

/-- The validation test of `main`:
`len(dict_filter(config_dict).keys() & REQUIRED_KEYS) < len(REQUIRED_KEYS)`. -/
def validationFails (d : Dict) : Prop :=
  (presentRequired d).length < REQUIRED_KEYS.length

instance (d : Dict) : Decidable (validationFails d) := by
  unfold validationFails; infer_instance

/-- The missing-key set printed on validation failure:
`REQUIRED_KEYS - dict_filter(config_dict).keys()`. -/
def missing_keys (d : Dict) : List String :=
  REQUIRED_KEYS.filter (fun k => !(containsKey (dict_filter d) k))

/-- The process exit status of the validation step: `sys.exit(1)` when the
required-key check fails, otherwise `main` continues (status 0 path). -/
def validation_exit_code (d : Dict) : Nat :=
  if validationFails d then 1 else 0

-- Basic lookup lemmas.

theorem lookup_isSome_iff_mem_keys (d : Dict) (k : String) :
    (lookup d k).isSome = true ↔ k ∈ keys d := by
  induction d with
  | nil => simp [lookup, keys]
  | cons kv d ih =>
    obtain ⟨k', v⟩ := kv
    by_cases h : k' = k
    · subst h; simp [lookup, keys]
    · simp [lookup, keys, h, ih, Ne.symm h]

theorem containsKey_iff_mem_keys (d : Dict) (k : String) :
    containsKey d k = true ↔ k ∈ keys d := by
  simpa [containsKey] using lookup_isSome_iff_mem_keys d k

theorem lookup_filter_of_lookup_some {d : Dict} {k : String} {v : Json}
    (p : String × Json → Bool)
    (hv : lookup d k = some v) (hp : p (k, v) = true) :
    lookup (d.filter p) k = some v := by
  induction d with
  | nil => simp [lookup] at hv
  | cons kv d ih =>
    obtain ⟨k', w⟩ := kv
    by_cases h : k' = k
    · subst h
      have hv' : w = v := by simpa [lookup] using hv
      subst hv'
      rw [List.filter_cons_of_pos hp]
      simp [lookup]
    · have hv' : lookup d k = some v := by
        simpa [lookup, h] using hv
      by_cases hpk : p (k', w) = true
      · rw [List.filter_cons_of_pos hpk]
        simp only [lookup]
        rw [if_neg h]
        exact ih hv'
      · rw [List.filter_cons_of_neg (by simpa using hpk)]
        exact ih hv'

theorem lookup_filter_none {d : Dict} {k : String}
    (p : String × Json → Bool)
    (h : ∀ v, (k, v) ∈ d → p (k, v) = false) :
    lookup (d.filter p) k = none := by
  induction d with
  | nil => simp [lookup]
  | cons kv d ih =>
    obtain ⟨k', w⟩ := kv
    by_cases hk : k' = k
    · subst hk
      have hw := h w (by simp)
      rw [List.filter_cons_of_neg (by simpa using hw)]
      exact ih (fun v hv => h v (List.mem_cons_of_mem _ hv))
    · by_cases hpk : p (k', w) = true
      · rw [List.filter_cons_of_pos hpk]
        simp only [lookup]
        rw [if_neg hk]
        exact ih (fun v hv => h v (List.mem_cons_of_mem _ hv))
      · rw [List.filter_cons_of_neg (by simpa using hpk)]
        exact ih (fun v hv => h v (List.mem_cons_of_mem _ hv))

theorem lookup_none_of_not_mem_keys {d : Dict} {k : String}
    (h : k ∉ keys d) : lookup d k = none := by
  induction d with
  | nil => rfl
  | cons kv d ih =>
    obtain ⟨k', v⟩ := kv
    simp only [keys, List.map_cons, List.mem_cons] at h
    push_neg at h
    simp only [lookup]
    rw [if_neg (Ne.symm h.1)]
    exact ih h.2

theorem mem_of_lookup_some {d : Dict} {k : String} {v : Json}
    (hv : lookup d k = some v) : (k, v) ∈ d := by
  induction d with
  | nil => simp [lookup] at hv
  | cons kv d ih =>
    obtain ⟨k', w⟩ := kv
    by_cases hk : k' = k
    · subst hk
      have hv' : w = v := by simpa [lookup] using hv
      subst hv'
      exact List.mem_cons_self _ _
    · have hv' : lookup d k = some v := by simpa [lookup, hk] using hv
      exact List.mem_cons_of_mem _ (ih hv')

theorem lookup_append (a b : Dict) (k : String) :
    lookup (a ++ b) k = match lookup a k with
      | some v => some v
      | none => lookup b k := by
  induction a with
  | nil => simp [lookup]
  | cons kv a ih =>
    obtain ⟨k', v⟩ := kv
    by_cases h : k' = k
    · subst h; simp [lookup]
    · simp [lookup, h, ih]

theorem lookup_map_update (d1 d2 : Dict) (k : String) :
    lookup (d1.map (fun kv =>
        match lookup d2 kv.1 with
        | some v => (kv.1, v)
        | none => kv)) k
      = (lookup d1 k).map (fun w => (lookup d2 k).getD w) := by
  induction d1 with
  | nil => simp [lookup]
  | cons kv d1 ih =>
    obtain ⟨k', w⟩ := kv
    by_cases h : k' = k
    · subst h
      cases h2 : lookup d2 k' <;> simp [lookup, h2]
    · cases h2 : lookup d2 k' <;> simp [lookup, h2, h, ih]

theorem lookup_filter_eq_of_all {d : Dict} {k : String}
    (p : String × Json → Bool)
    (h : ∀ v, (k, v) ∈ d → p (k, v) = true) :
    lookup (d.filter p) k = lookup d k := by
  cases hv : lookup d k with
  | none =>
    apply lookup_none_of_not_mem_keys
    intro hmem
    have hsub : k ∈ keys d := by
      simp only [keys, List.mem_map] at hmem ⊢
      obtain ⟨kv, hkv, hfst⟩ := hmem
      exact ⟨kv, List.mem_of_mem_filter hkv, hfst⟩
    have := (lookup_isSome_iff_mem_keys d k).2 hsub
    rw [hv] at this
    simp at this
  | some v =>
    exact lookup_filter_of_lookup_some p hv (h v (mem_of_lookup_some hv))

/-- The overlay looks up like `Option.orElse`: the second dictionary wins. -/
theorem lookup_overlay (d1 d2 : Dict) (k : String) :
    lookup (overlay d1 d2) k = match lookup d2 k with
      | some v => some v
      | none => lookup d1 k := by
  unfold overlay
  rw [lookup_append, lookup_map_update]
  cases h1 : lookup d1 k with
  | some w =>
    cases h2 : lookup d2 k <;> simp
  | none =>
    have hck : containsKey d1 k = false := by
      simp [containsKey, h1]
    rw [lookup_filter_eq_of_all]
    · cases h2 : lookup d2 k <;> simp [h1, h2]
    · intro v _
      simp [hck]

theorem lookup_of_mem_nodup {d : Dict} (hnd : (keys d).Nodup) {k : String} {v : Json}
    (hm : (k, v) ∈ d) : lookup d k = some v := by
  induction d with
  | nil => simp at hm
  | cons kv d ih =>
    obtain ⟨k', w⟩ := kv
    simp only [keys, List.map_cons, List.nodup_cons] at hnd
    rcases List.mem_cons.mp hm with h | h
    · cases h
      simp [lookup]
    · have hk : k' ≠ k := by
        intro he
        subst he
        exact hnd.1 (List.mem_map_of_mem Prod.fst h)
    
      simp only [lookup]
      rw [if_neg hk]
      exact ih hnd.2 h

theorem keys_filter_subset {d : Dict} {k : String} (p : String × Json → Bool)
    (h : k ∈ keys (d.filter p)) : k ∈ keys d := by
  simp only [keys, List.mem_map] at h ⊢
  obtain ⟨kv, hkv, hfst⟩ := h
  exact ⟨kv, List.mem_of_mem_filter hkv, hfst⟩

theorem dict_filter_eq_self {d : Dict}
    (h : ∀ kv ∈ d, kv.2.isNull = false) : dict_filter d = d := by
  unfold dict_filter
  rw [List.filter_eq_self]
  intro kv hkv
  simp [h kv hkv]

theorem lookup_dict_filter_none_of_null {d : Dict} {k : String}
    (hnd : (keys d).Nodup)
    (h : lookup d k = some Json.null ∨ lookup d k = none) :
    lookup (dict_filter d) k = none := by
  rcases h with h | h
  · apply lookup_filter_none
    intro v hv
    have := lookup_of_mem_nodup hnd hv
    rw [h] at this
    cases this
    rfl
  · apply lookup_none_of_not_mem_keys
    intro hmem
    have hk : k ∈ keys d := keys_filter_subset _ hmem
    have := (lookup_isSome_iff_mem_keys d k).2 hk
    rw [h] at this
    simp at this

/-- Claim C7: the sensitive-field filter removes exactly the denylisted keys
`password`, `consumer_key`, `consumer_secret`, `bearer_token`, and leaves the
binding of every other key unchanged. -/
theorem filter_sensitive_args_spec (d : Dict) (k : String) :
    lookup (filter_sensitive_args d) k =
      if k ∈ sens_args then none else lookup d k := by
  by_cases h : k ∈ sens_args
  · rw [if_pos h]
    apply lookup_filter_none
    intro v _
    simp [List.elem_iff, h]
  · rw [if_neg h]
    apply lookup_filter_eq_of_all
    intro v _
    simp [List.elem_iff, h]

/-- Claim C5: a key present with a non-null value in all three configuration
sources is mapped by the merged configuration to the cli-args value. -/
theorem merge_cli_precedence (file_cfg creds_cfg cli_cfg : Dict) (k : String)
    (vf vc va : Json)
    (hf : lookup file_cfg k = some vf) (hfn : vf.isNull = false)
    (hc : lookup creds_cfg k = some vc) (hcn : vc.isNull = false)
    (ha : lookup cli_cfg k = some va) (han : va.isNull = false) :
    lookup (merge_dicts file_cfg creds_cfg cli_cfg) k = some va := by
  unfold merge_dicts
  rw [lookup_overlay]
  have hcli : lookup (dict_filter cli_cfg) k = some va :=
    lookup_filter_of_lookup_some _ ha (by simp [han])
  rw [hcli]

/-- Claim C5 witness: concrete three-source merge where the cli value wins. -/
theorem merge_cli_precedence_witness :
    (lookup [("k", Json.str "file")] "k" = some (Json.str "file") ∧
      (Json.str "file").isNull = false ∧
      lookup [("k", Json.str "creds")] "k" = some (Json.str "creds") ∧
      (Json.str "creds").isNull = false ∧
      lookup [("k", Json.str "cli")] "k" = some (Json.str "cli") ∧
      (Json.str "cli").isNull = false) ∧
    lookup (merge_dicts [("k", Json.str "file")] [("k", Json.str "creds")]
      [("k", Json.str "cli")]) "k" = some (Json.str "cli") :=
  ⟨⟨rfl, rfl, rfl, rfl, rfl, rfl⟩,
    merge_cli_precedence _ _ _ "k" _ _ _ rfl rfl rfl rfl rfl rfl⟩

theorem lookup_eq_none_of_containsKey_false {d : Dict} {k : String}
    (h : containsKey d k = false) : lookup d k = none := by
  cases hl : lookup d k with
  | none => rfl
  | some v =>
    rw [containsKey, hl] at h
    simp at h

/-- Claim C6 counterexample: with the key also present (non-null) in the
credentials source, a key that is null in cli-args and non-null in file-config
merges to the credentials value, not to the file-config value. -/
theorem merge_null_cli_counterexample :
    lookup (merge_dicts [("k", Json.str "file")] [("k", Json.str "creds")]
        [("k", Json.null)]) "k" = some (Json.str "creds") ∧
    Json.str "creds" ≠ Json.str "file" := by
  refine ⟨rfl, ?_⟩
  intro h
  rw [Json.str.injEq] at h
  exact absurd h (by decide)

/-- Claim C6 (amended): for every key whose value is null in cli-args,
non-null in file-config, and null or absent in the credentials source, the
merged configuration maps that key to the file-config value: null-valued keys
are removed from each source before the precedence overlay, so such a source
contributes nothing for that key. -/
theorem merge_null_cli_amended (file_cfg creds_cfg cli_cfg : Dict) (k : String)
    (vf : Json)
    (hf : lookup file_cfg k = some vf) (hfn : vf.isNull = false)
    (hclind : (keys cli_cfg).Nodup)
    (hcli : lookup cli_cfg k = some Json.null)
    (hcredsnd : (keys creds_cfg).Nodup)
    (hcreds : lookup creds_cfg k = some Json.null ∨ lookup creds_cfg k = none) :
    lookup (merge_dicts file_cfg creds_cfg cli_cfg) k = some vf := by
  unfold merge_dicts
  rw [lookup_overlay]
  rw [lookup_dict_filter_none_of_null hclind (Or.inl hcli)]
  rw [lookup_overlay]
  rw [lookup_dict_filter_none_of_null hcredsnd hcreds]
  exact lookup_filter_of_lookup_some _ hf (by simp [hfn])

/-- Claim C6 (amended) witness: a concrete merge in which the null cli value
does not shadow the file value. -/
theorem merge_null_cli_amended_witness :
    (lookup [("k", Json.str "file")] "k" = some (Json.str "file") ∧
      (Json.str "file").isNull = false ∧
      (keys [("k", Json.null)]).Nodup ∧
      lookup [("k", Json.null)] "k" = some Json.null ∧
      (keys ([] : Dict)).Nodup ∧
      lookup ([] : Dict) "k" = none) ∧
    lookup (merge_dicts [("k", Json.str "file")] [] [("k", Json.null)]) "k"
      = some (Json.str "file") :=
  ⟨⟨rfl, rfl, by simp [keys], rfl, by simp [keys], rfl⟩,
    merge_null_cli_amended _ _ _ "k" _ rfl rfl (by simp [keys]) rfl
      (by simp [keys]) (Or.inr rfl)⟩

/-- Claim C10: for three sources with pairwise-disjoint key sets and all
values non-null, the merged configuration contains exactly the union of the
keys, each mapped to its original value from the source that contributed it. -/
theorem merge_disjoint_union (file_cfg creds_cfg cli_cfg : Dict)
    (hf : ∀ kv ∈ file_cfg, kv.2.isNull = false)
    (hc : ∀ kv ∈ creds_cfg, kv.2.isNull = false)
    (ha : ∀ kv ∈ cli_cfg, kv.2.isNull = false)
    (hfc : ∀ kv ∈ file_cfg, containsKey creds_cfg kv.1 = false)
    (hfa : ∀ kv ∈ file_cfg, containsKey cli_cfg kv.1 = false)
    (hca : ∀ kv ∈ creds_cfg, containsKey cli_cfg kv.1 = false)
    (k : String) :
    (containsKey (merge_dicts file_cfg creds_cfg cli_cfg) k = true ↔
      (containsKey file_cfg k = true ∨ containsKey creds_cfg k = true ∨
        containsKey cli_cfg k = true)) ∧
    (∀ v, lookup file_cfg k = some v →
      lookup (merge_dicts file_cfg creds_cfg cli_cfg) k = some v) ∧
    (∀ v, lookup creds_cfg k = some v →
      lookup (merge_dicts file_cfg creds_cfg cli_cfg) k = some v) ∧
    (∀ v, lookup cli_cfg k = some v →
      lookup (merge_dicts file_cfg creds_cfg cli_cfg) k = some v) := by
  have hfe : dict_filter file_cfg = file_cfg := dict_filter_eq_self hf
  have hce : dict_filter creds_cfg = creds_cfg := dict_filter_eq_self hc
  have hae : dict_filter cli_cfg = cli_cfg := dict_filter_eq_self ha
  have hmerge : ∀ k', lookup (merge_dicts file_cfg creds_cfg cli_cfg) k' =
      match lookup cli_cfg k' with
      | some v => some v
      | none =>
        match lookup creds_cfg k' with
        | some v => some v
        | none => lookup file_cfg k' := by
    intro k'
    unfold merge_dicts
    rw [hfe, hce, hae, lookup_overlay, lookup_overlay]
  refine ⟨?_, ?_, ?_, ?_⟩
  · simp only [containsKey, hmerge k]
    cases h1 : lookup cli_cfg k <;> cases h2 : lookup creds_cfg k <;>
      cases h3 : lookup file_cfg k <;> simp
  · intro v hv
    have h2 : lookup creds_cfg k = none :=
      lookup_eq_none_of_containsKey_false (hfc (k, v) (mem_of_lookup_some hv))
    have h3 : lookup cli_cfg k = none :=
      lookup_eq_none_of_containsKey_false (hfa (k, v) (mem_of_lookup_some hv))
    rw [hmerge k, h3, h2, hv]
  · intro v hv
    have h3 : lookup cli_cfg k = none :=
      lookup_eq_none_of_containsKey_false (hca (k, v) (mem_of_lookup_some hv))
    rw [hmerge k, h3, hv]
  · intro v hv
    rw [hmerge k, hv]

/-- Claim C10 witness: a concrete three-way disjoint merge. -/
theorem merge_disjoint_union_witness :
    ((∀ kv ∈ [("a", Json.str "1")], kv.2.isNull = false) ∧
      (∀ kv ∈ [("b", Json.str "2")], kv.2.isNull = false) ∧
      (∀ kv ∈ [("c", Json.str "3")], kv.2.isNull = false) ∧
      (∀ kv ∈ [("a", Json.str "1")], containsKey [("b", Json.str "2")] kv.1 = false) ∧
      (∀ kv ∈ [("a", Json.str "1")], containsKey [("c", Json.str "3")] kv.1 = false) ∧
      (∀ kv ∈ [("b", Json.str "2")], containsKey [("c", Json.str "3")] kv.1 = false)) ∧
    ((containsKey (merge_dicts [("a", Json.str "1")] [("b", Json.str "2")]
        [("c", Json.str "3")]) "b" = true ↔
      (containsKey [("a", Json.str "1")] "b" = true ∨
        containsKey [("b", Json.str "2")] "b" = true ∨
        containsKey [("c", Json.str "3")] "b" = true)) ∧
    (∀ v, lookup [("a", Json.str "1")] "b" = some v →
      lookup (merge_dicts [("a", Json.str "1")] [("b", Json.str "2")]
        [("c", Json.str "3")]) "b" = some v) ∧
    (∀ v, lookup [("b", Json.str "2")] "b" = some v →
      lookup (merge_dicts [("a", Json.str "1")] [("b", Json.str "2")]
        [("c", Json.str "3")]) "b" = some v) ∧
    (∀ v, lookup [("c", Json.str "3")] "b" = some v →
      lookup (merge_dicts [("a", Json.str "1")] [("b", Json.str "2")]
        [("c", Json.str "3")]) "b" = some v)) :=
  ⟨⟨by decide, by decide, by decide, by decide, by decide, by decide⟩,
    merge_disjoint_union _ _ _ (by decide) (by decide) (by decide)
      (by decide) (by decide) (by decide) "b"⟩

/-- Claim C4: on a merged, present-only configuration, the required-key check
fails exactly when some member of `REQUIRED_KEYS` is absent, the reported
missing set is `REQUIRED_KEYS` minus the configuration's keys, and on failure
the process exits with a non-zero status (`sys.exit(1)`). -/
theorem required_keys_validation (d : Dict)
    (hpo : ∀ kv ∈ d, kv.2.isNull = false) :
    (validationFails d ↔ ∃ k ∈ REQUIRED_KEYS, k ∉ keys d) ∧
    (∀ k, k ∈ missing_keys d ↔ (k ∈ REQUIRED_KEYS ∧ k ∉ keys d)) ∧
    (validationFails d → validation_exit_code d ≠ 0) ∧
    (¬ validationFails d → validation_exit_code d = 0) := by
  have hd : dict_filter d = d := dict_filter_eq_self hpo
  refine ⟨?_, ?_, ?_, ?_⟩
  · unfold validationFails presentRequired REQUIRED_KEYS
    simp only [hd]
    cases h1 : containsKey d "pt_rule" <;> cases h2 : containsKey d "endpoint"
    · have m1 : "pt_rule" ∉ keys d := by
        rw [← containsKey_iff_mem_keys, h1]; simp
      simp [h1, h2, m1]
    · have m1 : "pt_rule" ∉ keys d := by
        rw [← containsKey_iff_mem_keys, h1]; simp
      simp [h1, h2, m1]
    · have m2 : "endpoint" ∉ keys d := by
        rw [← containsKey_iff_mem_keys, h2]; simp
      simp [h1, h2, m2]
    · have m1 : "pt_rule" ∈ keys d := (containsKey_iff_mem_keys d _).1 h1
      have m2 : "endpoint" ∈ keys d := (containsKey_iff_mem_keys d _).1 h2
      simp [h1, h2, m1, m2]
  · intro k
    unfold missing_keys
    rw [hd, List.mem_filter]
    constructor
    · rintro ⟨hmem, hc⟩
      refine ⟨hmem, ?_⟩
      intro hk
      rw [← containsKey_iff_mem_keys] at hk
      rw [hk] at hc
      simp at hc
    · rintro ⟨hmem, hk⟩
      refine ⟨hmem, ?_⟩
      have : containsKey d k = false := by
        rw [← Bool.not_eq_true, containsKey_iff_mem_keys]
        exact hk
      simp [this]
  · intro h
    unfold validation_exit_code
    rw [if_pos h]
    exact one_ne_zero
  · intro h
    unfold validation_exit_code
    rw [if_neg h]

/-- Claim C4 witness: a present-only configuration missing `endpoint` fails
validation with exit status 1 and reports exactly `endpoint` as missing. -/
theorem required_keys_validation_witness :
    (∀ kv ∈ [("pt_rule", Json.str "rule")], kv.2.isNull = false) ∧
    ((validationFails [("pt_rule", Json.str "rule")] ↔
        ∃ k ∈ REQUIRED_KEYS, k ∉ keys [("pt_rule", Json.str "rule")]) ∧
      (∀ k, k ∈ missing_keys [("pt_rule", Json.str "rule")] ↔
        (k ∈ REQUIRED_KEYS ∧ k ∉ keys [("pt_rule", Json.str "rule")])) ∧
      (validationFails [("pt_rule", Json.str "rule")] →
        validation_exit_code [("pt_rule", Json.str "rule")] ≠ 0) ∧
      (¬ validationFails [("pt_rule", Json.str "rule")] →
        validation_exit_code [("pt_rule", Json.str "rule")] = 0)) :=
  ⟨by decide, required_keys_validation _ (by decide)⟩

/-!
Stream consumption in `main`.  The constructed `ResultStream`/`stream()` value
is a forward-only, non-restartable generator over the records the API would
yield: iterating it a first time yields every record and leaves it exhausted;
iterating the same handle again yields nothing.  `main` runs two `for` loops
over the same handle: a first echo-only loop (`for tweet in stream:
print(json.dumps(tweet))`), then `all_tweets = []` followed by a second loop
that echoes and appends (`all_tweets.append(tweet)`); both loops are guarded
by `config_dict["print_stream"]`.
-/

structure RunTrace where
  printedFirstLoop : List Dict
  printedSecondLoop : List Dict
  all_tweets : List Dict
  streamPasses : Nat

/-- The two guarded `for` loops of `main` over the one stream handle, with the
generator semantics above: records yielded by the first loop, records yielded
by (and appended in) the second loop, the final `all_tweets`, and how many
`for` loops were run over the handle. -/
def consumeStream (print_stream : Bool) (stream0 : List Dict) : RunTrace :=
  let firstYield := if print_stream then stream0 else []
  let remaining1 := if print_stream then [] else stream0
  let secondYield := if print_stream then remaining1 else []
  { printedFirstLoop := firstYield
    printedSecondLoop := secondYield
    all_tweets := secondYield
    streamPasses := (if print_stream then 1 else 0) + (if print_stream then 1 else 0) }

/-!
The CSV export writer `save_to_csv`.  `csv.DictWriter(csvfile,
fieldnames=keys)` is constructed with the Python default
`extrasaction="raise"`: converting a record whose key set contains a key not
in `fieldnames` raises `ValueError`; keys missing from a record are filled
with the default `restval=""`.  The file is modelled at the row level: the
header row (the fieldnames) followed by the data rows actually written before
a possible `ValueError`; the success message is printed only when no error
was raised.
-/

/-- The keys of a record that are not in the writer's fieldnames
(`rowdict.keys() - self.fieldnames` in `csv.DictWriter._dict_to_list`). -/
def extra_fields (fieldnames : List String) (d : Dict) : List String :=
  (keys d).filter (fun k => !(fieldnames.contains k))

/-- `csv.DictWriter._dict_to_list` with `extrasaction="raise"` and
`restval=""`: `none` models the raised `ValueError`. -/
def dictToRow (fieldnames : List String) (d : Dict) : Option (List Json) :=
  if extra_fields fieldnames d = [] then
    some (fieldnames.map (fun k => (lookup d k).getD (Json.str "")))
  else none

/-- `writer.writerows(tweets)`: rows are converted and written one at a time;
the first record that raises stops the write, keeping the rows already
written (second component `true` means a `ValueError` was raised). -/
def writeRows (fieldnames : List String) : List Dict → List (List Json) × Bool
  | [] => ([], false)
  | d :: ds =>
    match dictToRow fieldnames d with
    | none => ([], true)
    | some row =>
      let r := writeRows fieldnames ds
      (row :: r.1, r.2)

structure CsvResult where
  file : Option (String × List String × List (List Json))
  error : Bool
  message : Option String

/-- `save_to_csv(tweets, filename)`: empty input prints "No tweets to save."
and creates no file; otherwise the file is created, the header is the first
record's keys (`tweets[0].keys()`), the rows are written until a possible
`ValueError`, and the success message is printed only on a complete write. -/
def save_to_csv (tweets : List Dict) (filename : String) : CsvResult :=
  match tweets with
  | [] => { file := none, error := false, message := some "No tweets to save." }
  | t0 :: _ =>
    let fieldnames := keys t0
    let r := writeRows fieldnames tweets
    { file := some (filename, fieldnames, r.1)
      error := r.2
      message := if r.2 then none
        else some ("Saved " ++ toString tweets.length ++ " tweets to " ++ filename) }

/-!
The JSON export writer `save_to_json` serializes with
`json.dump(tweets, jsonfile, ensure_ascii=False, indent=2)`:
2-space indentation, item separator "," and key separator ": ", non-ASCII
characters written verbatim, and only `"`.`\` and control characters escaped.
-/

def digitChar (n : Nat) : Char := Char.ofNat (48 + n)

def natToDigitsGo : Nat → Nat → List Char
  | 0, _ => []
  | fuel + 1, n =>
    if n < 10 then [digitChar n]
    else natToDigitsGo fuel (n / 10) ++ [digitChar (n % 10)]

/-- Decimal digits of a non-negative integer (no leading zeros, "0" for 0). -/
def natToDigits (n : Nat) : List Char := natToDigitsGo (n + 1) n

/-- Python `str` of an int: optional minus sign, then decimal digits. -/
def intToChars (n : Int) : List Char :=
  if n < 0 then '-' :: natToDigits n.natAbs else natToDigits n.toNat

def hexDigit (n : Nat) : Char := if n < 10 then digitChar n else Char.ofNat (87 + n)

/-- `json.dump` escaping of one string character with `ensure_ascii=False`:
only the quote, the backslash and control characters are escaped (the named
escapes, or a `\u00XX` form); every other character is written verbatim. -/
def escChar (c : Char) : List Char :=
  if c == '"' then ['\\', '"']
  else if c == '\\' then ['\\', '\\']
  else if c == '\n' then ['\\', 'n']
  else if c == '\r' then ['\\', 'r']
  else if c == '\t' then ['\\', 't']
  else if c.toNat == 8 then ['\\', 'b']
  else if c.toNat == 12 then ['\\', 'f']
  else if c.toNat < 32 then
    ['\\', 'u', '0', '0', hexDigit (c.toNat / 16), hexDigit (c.toNat % 16)]
  else [c]

def escList : List Char → List Char
  | [] => []
  | c :: cs => escChar c ++ escList cs

/-- A serialized JSON string literal. -/
def strChars (s : String) : List Char := '"' :: (escList s.data ++ ['"'])

/-- The `indent=2` newline padding at nesting depth `d`. -/
def indentChars (d : Nat) : List Char := List.replicate (2 * d) ' '

mutual

/-- Serialization of one value at nesting depth `d`
(`json.dump(..., ensure_ascii=False, indent=2)`). -/
def dumpVal : Nat → Json → List Char
  | _, .null => ['n', 'u', 'l', 'l']
  | _, .bool true => ['t', 'r', 'u', 'e']
  | _, .bool false => ['f', 'a', 'l', 's', 'e']
  | _, .num n => intToChars n
  | _, .str s => strChars s
  | _, .arr [] => ['[', ']']
  | d, .arr (x :: xs) => '[' :: '\n' :: (indentChars (d + 1) ++ dumpItems (d + 1) d (x :: xs))
  | _, .obj [] => ['{', '}']
  | d, .obj (m :: ms) => '{' :: '\n' :: (indentChars (d + 1) ++ dumpMembers (d + 1) d (m :: ms))

/-- The items of a non-empty array at item depth `d`, closing bracket indented
at depth `dc`; includes the separators and the closing bracket. -/
def dumpItems : Nat → Nat → List Json → List Char
  | _, _, [] => [']']
  | d, dc, [x] => dumpVal d x ++ '\n' :: (indentChars dc ++ [']'])
  | d, dc, x :: xs => dumpVal d x ++ ',' :: '\n' :: (indentChars d ++ dumpItems d dc xs)

/-- The members of a non-empty object, written as `"key": value`, with the
separators and the closing brace. -/
def dumpMembers : Nat → Nat → List (String × Json) → List Char
  | _, _, [] => ['}']
  | d, dc, [(k, v)] =>
    strChars k ++ ':' :: ' ' :: (dumpVal d v ++ '\n' :: (indentChars dc ++ ['}']))
  | d, dc, (k, v) :: ms =>
    strChars k ++ ':' :: ' ' :: (dumpVal d v ++ ',' :: '\n' :: (indentChars d ++ dumpMembers d dc ms))

end

/-- `json.dumps(v, ensure_ascii=False, indent=2)` as a string. -/
def jsonDumps (v : Json) : String := String.mk (dumpVal 0 v)

structure JsonResult where
  file : Option (String × String)
  message : String

/-- `save_to_json(tweets, filename)`: empty input prints "No tweets to save."
and creates no file; otherwise the whole list is written as one JSON array. -/
def save_to_json (tweets : List Dict) (filename : String) : JsonResult :=
  match tweets with
  | [] => { file := none, message := "No tweets to save." }
  | _ => { file := some (filename, jsonDumps (Json.arr (tweets.map Json.obj)))
           message := "Saved " ++ toString tweets.length ++ " tweets to " ++ filename }

structure ExportOutcome where
  filesWritten : List String
  messages : List String

/-- The export dispatch of `main` for a requested format:
`save_to_csv` when `export_type in ("csv", "both")` (file `base.csv`), then
`save_to_json` when `export_type in ("json", "both")` (file `base.json`);
collects the names of the files created and the messages printed. -/
def exportRun (fmt : String) (tweets : List Dict) (base : String) : ExportOutcome :=
  let csvPart :=
    if fmt = "csv" ∨ fmt = "both" then
      let r := save_to_csv tweets (base ++ ".csv")
      ((r.file.map Prod.fst).toList, r.message.toList)
    else ([], [])
  let jsonPart :=
    if fmt = "json" ∨ fmt = "both" then
      let r := save_to_json tweets (base ++ ".json")
      ((r.file.map Prod.fst).toList, [r.message])
    else ([], [])
  { filesWritten := csvPart.1 ++ jsonPart.1
    messages := csvPart.2 ++ jsonPart.2 }

/-- The guard `if export_type and all_tweets:` of `main` in front of the
export dispatch: a `None` export type, a falsy (empty) format string, or an
empty `all_tweets` list skips the export entirely. -/
def mainExport (export_t : Option String) (all_tweets : List Dict) (base : String) :
    ExportOutcome :=
  match export_t with
  | none => { filesWritten := [], messages := [] }
  | some fmt =>
    if fmt = "" ∨ all_tweets.isEmpty then { filesWritten := [], messages := [] }
    else exportRun fmt all_tweets base

structure MainTail where
  trace : RunTrace
  outcome : ExportOutcome

/-- The tail of `main` after stream construction: the two consumption loops
followed by the guarded export step. -/
def mainTail (print_stream : Bool) (export_t : Option String) (base : String)
    (stream0 : List Dict) : MainTail :=
  let t := consumeStream print_stream stream0
  { trace := t, outcome := mainExport export_t t.all_tweets base }

/-- Claim C2: for every run over a forward-only, non-restartable finite
stream, `all_tweets` is empty when the export step is reached (with console
streaming on, the collecting loop re-iterates the exhausted handle; with it
off, no collecting loop runs), so no CSV or JSON export file is ever written,
whatever the export flag and however many records the stream produced. -/
theorem all_tweets_always_empty (print_stream : Bool) (export_t : Option String)
    (base : String) (stream0 : List Dict) :
    (mainTail print_stream export_t base stream0).trace.all_tweets = [] ∧
    (mainTail print_stream export_t base stream0).outcome.filesWritten = [] := by
  cases print_stream <;> cases export_t <;>
    simp [mainTail, consumeStream, mainExport]

/-- Claim C1 fails on the code: with console streaming enabled and a stream
yielding one record, `main` runs a second `for` loop over the already
exhausted handle (two passes over the one stream handle), and the record is
echoed by the first loop but never appended to `all_tweets` — the stream is
not consumed in one pass forking each record to both sinks. -/
theorem single_pass_claim_fails_on_code :
    (consumeStream true [[("a", Json.num 1)]]).streamPasses = 2 ∧
    (consumeStream true [[("a", Json.num 1)]]).printedFirstLoop
      = [[("a", Json.num 1)]] ∧
    (consumeStream true [[("a", Json.num 1)]]).all_tweets = [] :=
  ⟨rfl, rfl, rfl⟩

/-- Claim C8: exporting an empty record list writes zero files for each
requested format (csv, json or both), and every message reported is the
"No tweets to save." notice. -/
theorem export_empty_writes_nothing (fmt base : String)
    (hfmt : fmt = "csv" ∨ fmt = "json" ∨ fmt = "both") :
    (exportRun fmt [] base).filesWritten = [] ∧
    (exportRun fmt [] base).messages ≠ [] ∧
    ∀ m ∈ (exportRun fmt [] base).messages, m = "No tweets to save." := by
  rcases hfmt with h | h | h <;> subst h <;>
    exact ⟨rfl, by simp [exportRun, save_to_csv, save_to_json],
      by intro m hm; simp [exportRun, save_to_csv, save_to_json] at hm; simp [hm]⟩

/-- Claim C8 witness: the empty export at a concrete format and base name. -/
theorem export_empty_writes_nothing_witness :
    (("both" : String) = "csv" ∨ ("both" : String) = "json" ∨ ("both" : String) = "both") ∧
    ((exportRun "both" [] "x").filesWritten = [] ∧
      (exportRun "both" [] "x").messages ≠ [] ∧
      ∀ m ∈ (exportRun "both" [] "x").messages, m = "No tweets to save.") :=
  ⟨Or.inr (Or.inr rfl),
    export_empty_writes_nothing "both" "x" (Or.inr (Or.inr rfl))⟩

/-- Claim C3 counterexample: exporting the records [{"a": 1}, {"a": 2, "b": 3}]
in CSV format does not write a header-a file with two data rows: the
`DictWriter` (default `extrasaction="raise"`) raises `ValueError` on the
second record's extra key `b`, so the file holds the header and the first
data row only and the write aborts with no success message. -/
theorem csv_extra_key_counterexample :
    (save_to_csv [[("a", Json.num 1)], [("a", Json.num 2), ("b", Json.num 3)]]
        "x.csv").error = true ∧
    ¬ ((save_to_csv [[("a", Json.num 1)], [("a", Json.num 2), ("b", Json.num 3)]]
        "x.csv").error = false ∧
      (save_to_csv [[("a", Json.num 1)], [("a", Json.num 2), ("b", Json.num 3)]]
        "x.csv").file = some ("x.csv", ["a"], [[Json.num 1], [Json.num 2]])) := by
  refine ⟨rfl, ?_⟩
  intro h
  have he : (save_to_csv [[("a", Json.num 1)], [("a", Json.num 2), ("b", Json.num 3)]]
      "x.csv").error = true := rfl
  rw [h.1] at he
  exact Bool.noConfusion he

/-- Claim C3 (amended): exporting [{"a": 1}, {"a": 2, "b": 3}] in CSV format
with base name x creates x.csv whose header row contains only the column a
(derived from the first record) followed by the single data row for the first
record; the second record's extra key b is not dropped — converting it raises
`ValueError`, which aborts the write before the second data row and skips the
success message. -/
theorem csv_extra_key_amended :
    save_to_csv [[("a", Json.num 1)], [("a", Json.num 2), ("b", Json.num 3)]] "x.csv"
      = { file := some ("x.csv", ["a"], [[Json.num 1]])
          error := true
          message := none } := rfl

/-!
Reading the artifact back: a recursive-descent parser for the JSON grammar,
modelling `json.load` on the sublanguage produced by the data model (integer
numbers).  The mutual recursion is fuelled; `parseJson` supplies one unit of
fuel per input character plus one, which suffices since every JSON node
occupies at least one character of input.
-/

def isWs (c : Char) : Bool := c == ' ' || c == '\n' || c == '\t' || c == '\r'

def skipWs : List Char → List Char
  | [] => []
  | c :: cs => if isWs c then skipWs cs else c :: cs

def isDigitChar (c : Char) : Bool := 48 ≤ c.toNat && c.toNat ≤ 57

def startsWithDigit : List Char → Bool
  | [] => false
  | c :: _ => isDigitChar c

def hexDigitVal (c : Char) : Option Nat :=
  if 48 ≤ c.toNat ∧ c.toNat ≤ 57 then some (c.toNat - 48)
  else if 97 ≤ c.toNat ∧ c.toNat ≤ 102 then some (c.toNat - 87)
  else if 65 ≤ c.toNat ∧ c.toNat ≤ 70 then some (c.toNat - 55)
  else none

/-- Accumulating decimal-digit scan: consumes the maximal digit prefix. -/
def parseDigitsLoop : Nat → List Char → Nat × List Char
  | acc, [] => (acc, [])
  | acc, c :: cs =>
    if isDigitChar c then parseDigitsLoop (acc * 10 + (c.toNat - 48)) cs
    else (acc, c :: cs)

def escDecode (e : Char) : Option Char :=
  if e == '"' then some '"'
  else if e == '\\' then some '\\'
  else if e == '/' then some '/'
  else if e == 'n' then some '\n'
  else if e == 'r' then some '\r'
  else if e == 't' then some '\t'
  else if e == 'b' then some (Char.ofNat 8)
  else if e == 'f' then some (Char.ofNat 12)
  else none

/-- The body of a string literal after the opening quote: the decoded
characters and the input after the closing quote. -/
def parseStringBody : List Char → Option (List Char × List Char)
  | [] => none
  | c :: cs =>
    if c == '"' then some ([], cs)
    else if c == '\\' then
      match cs with
      | 'u' :: h1 :: h2 :: h3 :: h4 :: cs2 =>
        match hexDigitVal h1, hexDigitVal h2, hexDigitVal h3, hexDigitVal h4 with
        | some a, some b, some c3, some d4 =>
          match parseStringBody cs2 with
          | some (s, r) => some (Char.ofNat (((a * 16 + b) * 16 + c3) * 16 + d4) :: s, r)
          | none => none
        | _, _, _, _ => none
      | e :: cs2 =>
        match escDecode e with
        | some ce =>
          match parseStringBody cs2 with
          | some (s, r) => some (ce :: s, r)
          | none => none
        | none => none
      | [] => none
    else
      match parseStringBody cs with
      | some (s, r) => some (c :: s, r)
      | none => none

mutual

/-- One JSON value, after optional leading whitespace. -/
def parseVal : Nat → List Char → Option (Json × List Char)
  | 0, _ => none
  | fuel + 1, cs =>
    match skipWs cs with
    | 'n' :: 'u' :: 'l' :: 'l' :: r => some (.null, r)
    | 't' :: 'r' :: 'u' :: 'e' :: r => some (.bool true, r)
    | 'f' :: 'a' :: 'l' :: 's' :: 'e' :: r => some (.bool false, r)
    | '"' :: r =>
      match parseStringBody r with
      | some (s, r1) => some (.str (String.mk s), r1)
      | none => none
    | '[' :: r =>
      match skipWs r with
      | ']' :: r1 => some (.arr [], r1)
      | r1 =>
        match parseItems fuel r1 with
        | some (xs, r2) => some (.arr xs, r2)
        | none => none
    | '{' :: r =>
      match skipWs r with
      | '}' :: r1 => some (.obj [], r1)
      | r1 =>
        match parseMembers fuel r1 with
        | some (ms, r2) => some (.obj ms, r2)
        | none => none
    | '-' :: c :: r =>
      if isDigitChar c then
        some (.num (-((parseDigitsLoop (c.toNat - 48) r).1 : Int)),
          (parseDigitsLoop (c.toNat - 48) r).2)
      else none
    | c :: r =>
      if isDigitChar c then
        some (.num ((parseDigitsLoop (c.toNat - 48) r).1 : Int),
          (parseDigitsLoop (c.toNat - 48) r).2)
      else none
    | [] => none

/-- The items of a non-empty array, through the closing bracket. -/
def parseItems : Nat → List Char → Option (List Json × List Char)
  | 0, _ => none
  | fuel + 1, cs =>
    match parseVal fuel cs with
    | none => none
    | some (v, r1) =>
      match skipWs r1 with
      | ',' :: r2 =>
        match parseItems fuel r2 with
        | some (vs, r3) => some (v :: vs, r3)
        | none => none
      | ']' :: r2 => some ([v], r2)
      | _ => none

/-- The members of a non-empty object, through the closing brace. -/
def parseMembers : Nat → List Char → Option (List (String × Json) × List Char)
  | 0, _ => none
  | fuel + 1, cs =>
    match cs with
    | '"' :: r0 =>
      match parseStringBody r0 with
      | none => none
      | some (kl, r1) =>
        match skipWs r1 with
        | ':' :: r2 =>
          match parseVal fuel r2 with
          | none => none
          | some (v, r3) =>
            match skipWs r3 with
            | ',' :: r4 =>
              match parseMembers fuel (skipWs r4) with
              | some (ms, r5) => some ((String.mk kl, v) :: ms, r5)
              | none => none
            | '}' :: r4 => some ([(String.mk kl, v)], r4)
            | _ => none
        | _ => none
    | _ => none

end

/-- `json.load` on a whole document: one value, possibly surrounded by
whitespace, and nothing else. -/
def parseJson (s : String) : Option Json :=
  match parseVal (s.length + 1) s.data with
  | some (v, r) => if (skipWs r).isEmpty then some v else none
  | none => none

mutual

/-- Node count of a value: the fuel needed by the parser to read it back. -/
def nodes : Json → Nat
  | .null => 1
  | .bool _ => 1
  | .num _ => 1
  | .str _ => 1
  | .arr xs => 1 + nodesList xs
  | .obj ms => 1 + nodesMembers ms

def nodesList : List Json → Nat
  | [] => 1
  | x :: xs => 1 + nodes x + nodesList xs

def nodesMembers : List (String × Json) → Nat
  | [] => 1
  | (_, v) :: ms => 1 + nodes v + nodesMembers ms

end

theorem digitChar_toNat : ∀ n, n < 10 → (digitChar n).toNat = 48 + n := by decide

theorem isDigitChar_digitChar : ∀ n, n < 10 → isDigitChar (digitChar n) = true := by decide

theorem isWs_digitChar : ∀ n, n < 10 → isWs (digitChar n) = false := by decide

theorem digitChar_ne_brackets : ∀ n, n < 10 →
    digitChar n ≠ ']' ∧ digitChar n ≠ '}' := by decide

theorem hexDigitVal_hexDigit : ∀ m, m < 16 → hexDigitVal (hexDigit m) = some m := by decide

theorem skipWs_cons_of_not_ws {c : Char} (h : isWs c = false) (l : List Char) :
    skipWs (c :: l) = c :: l := by
  simp [skipWs, h]

theorem skipWs_cons_of_ws {c : Char} (h : isWs c = true) (l : List Char) :
    skipWs (c :: l) = skipWs l := by
  simp [skipWs, h]

theorem skipWs_replicate_space (n : Nat) (l : List Char) :
    skipWs (List.replicate n ' ' ++ l) = skipWs l := by
  induction n with
  | zero => simp
  | succ n ih =>
    rw [List.replicate_succ, List.cons_append,
      skipWs_cons_of_ws (show isWs ' ' = true from rfl)]
    exact ih

theorem skipWs_indent (d : Nat) (l : List Char) :
    skipWs (indentChars d ++ l) = skipWs l :=
  skipWs_replicate_space (2 * d) l

theorem skipWs_allWs {pre : List Char} (h : ∀ c ∈ pre, isWs c = true) (l : List Char) :
    skipWs (pre ++ l) = skipWs l := by
  induction pre with
  | nil => rfl
  | cons c cs ih =>
    rw [List.cons_append, skipWs_cons_of_ws (h c (by simp))]
    exact ih (fun c' hc' => h c' (List.mem_cons_of_mem _ hc'))

theorem parseDigitsLoop_stop (a : Nat) {l : List Char}
    (h : startsWithDigit l = false) :
    parseDigitsLoop a l = (a, l) := by
  cases l with
  | nil => rfl
  | cons c cs =>
    simp only [startsWithDigit] at h
    simp [parseDigitsLoop, h]

theorem parseDigitsLoop_go (fuel : Nat) :
    ∀ n a rest, n ≤ fuel →
      parseDigitsLoop a (natToDigitsGo (fuel + 1) n ++ rest)
        = parseDigitsLoop (a * 10 ^ (natToDigitsGo (fuel + 1) n).length + n) rest := by
  induction fuel with
  | zero =>
    intro n a rest hn
    have hn0 : n = 0 := by omega
    subst hn0
    rw [show natToDigitsGo 1 0 = [digitChar 0] from rfl]
    rw [List.singleton_append]
    simp only [parseDigitsLoop]
    rw [if_pos (isDigitChar_digitChar 0 (by norm_num))]
    rw [digitChar_toNat 0 (by norm_num)]
    norm_num
  | succ fuel ih =>
    intro n a rest hn
    by_cases h10 : n < 10
    · rw [natToDigitsGo, if_pos h10]
      rw [List.singleton_append]
      simp only [parseDigitsLoop]
      rw [if_pos (isDigitChar_digitChar n h10)]
      rw [digitChar_toNat n h10]
      have he : 48 + n - 48 = n := by omega
      rw [he]
      norm_num
    · rw [natToDigitsGo, if_neg h10]
      have hd : n / 10 ≤ fuel := by omega
      rw [List.append_assoc, List.singleton_append]
      rw [ih (n / 10) a (digitChar (n % 10) :: rest) hd]
      have hm : n % 10 < 10 := Nat.mod_lt _ (by omega)
      simp only [parseDigitsLoop]
      rw [if_pos (isDigitChar_digitChar _ hm)]
      rw [digitChar_toNat _ hm]
      have he : 48 + n % 10 - 48 = n % 10 := by omega
      rw [he]
      have hlen : (natToDigitsGo (fuel + 1) (n / 10) ++ [digitChar (n % 10)]).length
          = (natToDigitsGo (fuel + 1) (n / 10)).length + 1 := by
        simp
      rw [hlen]
      have hdm := Nat.div_add_mod n 10
      have hb : (a * 10 ^ (natToDigitsGo (fuel + 1) (n / 10)).length + n / 10) * 10 + n % 10
          = a * 10 ^ ((natToDigitsGo (fuel + 1) (n / 10)).length + 1) + n := by
        rw [pow_succ, ← Nat.mul_assoc]
        omega
      rw [hb]

theorem parseDigitsLoop_natToDigits (n : Nat) (a : Nat) {rest : List Char}
    (h : startsWithDigit rest = false) :
    parseDigitsLoop a (natToDigits n ++ rest)
      = (a * 10 ^ (natToDigits n).length + n, rest) := by
  unfold natToDigits
  rw [parseDigitsLoop_go n n a rest (le_refl n)]
  exact parseDigitsLoop_stop _ h

theorem natToDigitsGo_head (fuel : Nat) :
    ∀ n, ∃ m t, m < 10 ∧ natToDigitsGo (fuel + 1) n = digitChar m :: t := by
  induction fuel with
  | zero =>
    intro n
    rw [natToDigitsGo]
    by_cases h : n < 10
    · rw [if_pos h]; exact ⟨n, [], h, rfl⟩
    · rw [if_neg h]
      exact ⟨n % 10, [], Nat.mod_lt _ (by omega), by rw [natToDigitsGo]; rfl⟩
  | succ fuel ih =>
    intro n
    rw [natToDigitsGo]
    by_cases h : n < 10
    · rw [if_pos h]; exact ⟨n, [], h, rfl⟩
    · rw [if_neg h]
      obtain ⟨m, t, hm, heq⟩ := ih (n / 10)
      exact ⟨m, t ++ [digitChar (n % 10)], hm, by rw [heq]; rfl⟩

theorem digits_split (n : Nat) {rest : List Char}
    (h : startsWithDigit rest = false) :
    ∃ m t, m < 10 ∧ natToDigits n = digitChar m :: t ∧
      parseDigitsLoop ((digitChar m).toNat - 48) (t ++ rest) = (n, rest) := by
  obtain ⟨m, t, hm, heq⟩ := natToDigitsGo_head n n
  refine ⟨m, t, hm, heq, ?_⟩
  have h0 := parseDigitsLoop_natToDigits n 0 h
  rw [show natToDigits n = digitChar m :: t from heq] at h0
  rw [List.cons_append] at h0
  simp only [parseDigitsLoop] at h0
  rw [if_pos (isDigitChar_digitChar m hm)] at h0
  simpa using h0

theorem parseStringBody_quote (r : List Char) :
    parseStringBody ('"' :: r) = some ([], r) := by
  simp [parseStringBody.eq_def]

theorem parseStringBody_esc_q (X : List Char) :
    parseStringBody ('\\' :: '"' :: X)
      = match parseStringBody X with
        | some (s, r2) => some ('"' :: s, r2)
        | none => none := by
  simp [parseStringBody, escDecode]

theorem parseStringBody_esc_bs (X : List Char) :
    parseStringBody ('\\' :: '\\' :: X)
      = match parseStringBody X with
        | some (s, r2) => some ('\\' :: s, r2)
        | none => none := by
  simp [parseStringBody, escDecode]

theorem parseStringBody_esc_n (X : List Char) :
    parseStringBody ('\\' :: 'n' :: X)
      = match parseStringBody X with
        | some (s, r2) => some ('\n' :: s, r2)
        | none => none := by
  simp [parseStringBody, escDecode]

theorem parseStringBody_esc_r (X : List Char) :
    parseStringBody ('\\' :: 'r' :: X)
      = match parseStringBody X with
        | some (s, r2) => some ('\r' :: s, r2)
        | none => none := by
  simp [parseStringBody, escDecode]

theorem parseStringBody_esc_t (X : List Char) :
    parseStringBody ('\\' :: 't' :: X)
      = match parseStringBody X with
        | some (s, r2) => some ('\t' :: s, r2)
        | none => none := by
  simp [parseStringBody, escDecode]

theorem parseStringBody_esc_b (X : List Char) :
    parseStringBody ('\\' :: 'b' :: X)
      = match parseStringBody X with
        | some (s, r2) => some (Char.ofNat 8 :: s, r2)
        | none => none := by
  simp [parseStringBody, escDecode]

theorem parseStringBody_esc_f (X : List Char) :
    parseStringBody ('\\' :: 'f' :: X)
      = match parseStringBody X with
        | some (s, r2) => some (Char.ofNat 12 :: s, r2)
        | none => none := by
  simp [parseStringBody, escDecode]

theorem parseStringBody_esc_u (c3 c4 : Char) (a b : Nat)
    (h3 : hexDigitVal c3 = some a) (h4 : hexDigitVal c4 = some b) (X : List Char) :
    parseStringBody ('\\' :: 'u' :: '0' :: '0' :: c3 :: c4 :: X)
      = match parseStringBody X with
        | some (s, r2) => some (Char.ofNat (a * 16 + b) :: s, r2)
        | none => none := by
  simp only [parseStringBody, h3, h4]
  rw [show hexDigitVal '0' = some 0 from rfl]
  simp

theorem parseStringBody_other {c : Char}
    (h1 : (c == '"') = false) (h2 : (c == '\\') = false) (X : List Char) :
    parseStringBody (c :: X)
      = match parseStringBody X with
        | some (s, r2) => some (c :: s, r2)
        | none => none := by
  rw [parseStringBody.eq_def]
  split
  · next x heq => exact absurd heq (by simp)
  · next x c' cs heq =>
    injection heq with hc hcs
    subst hc
    subst hcs
    rw [if_neg (by simp [h1]), if_neg (by simp [h2])]

theorem escChar_control {c : Char}
    (h1 : (c == '"') = false) (h2 : (c == '\\') = false)
    (h3 : (c == '\n') = false) (h4 : (c == '\r') = false)
    (h5 : (c == '\t') = false) (h6 : (c.toNat == 8) = false)
    (h7 : (c.toNat == 12) = false) (h8 : c.toNat < 32) :
    escChar c = ['\\', 'u', '0', '0', hexDigit (c.toNat / 16), hexDigit (c.toNat % 16)] := by
  unfold escChar
  rw [if_neg (by simp [h1]), if_neg (by simp [h2]), if_neg (by simp [h3]),
    if_neg (by simp [h4]), if_neg (by simp [h5]), if_neg (by simp [h6]),
    if_neg (by simp [h7]), if_pos h8]

theorem escChar_verbatim {c : Char}
    (h1 : (c == '"') = false) (h2 : (c == '\\') = false)
    (h3 : (c == '\n') = false) (h4 : (c == '\r') = false)
    (h5 : (c == '\t') = false) (h6 : (c.toNat == 8) = false)
    (h7 : (c.toNat == 12) = false) (h8 : ¬ c.toNat < 32) :
    escChar c = [c] := by
  unfold escChar
  rw [if_neg (by simp [h1]), if_neg (by simp [h2]), if_neg (by simp [h3]),
    if_neg (by simp [h4]), if_neg (by simp [h5]), if_neg (by simp [h6]),
    if_neg (by simp [h7]), if_neg h8]

theorem parseStringBody_escList : ∀ (l rest : List Char),
    parseStringBody (escList l ++ ('"' :: rest)) = some (l, rest) := by
  intro l
  induction l with
  | nil =>
    intro rest
    rw [show escList [] ++ ('"' :: rest) = '"' :: rest from rfl]
    exact parseStringBody_quote rest
  | cons c cs ih =>
    intro rest
    show parseStringBody ((escChar c ++ escList cs) ++ ('"' :: rest)) = some (c :: cs, rest)
    rw [List.append_assoc]
    by_cases h1 : (c == '"') = true
    · have hc := eq_of_beq h1
      subst hc
      rw [show escChar '"' = ['\\', '"'] from rfl]
      simp only [List.cons_append, List.nil_append]
      rw [parseStringBody_esc_q, ih rest]
    rw [Bool.not_eq_true] at h1
    by_cases h2 : (c == '\\') = true
    · have hc := eq_of_beq h2
      subst hc
      rw [show escChar '\\' = ['\\', '\\'] from rfl]
      simp only [List.cons_append, List.nil_append]
      rw [parseStringBody_esc_bs, ih rest]
    rw [Bool.not_eq_true] at h2
    by_cases h3 : (c == '\n') = true
    · have hc := eq_of_beq h3
      subst hc
      rw [show escChar '\n' = ['\\', 'n'] from rfl]
      simp only [List.cons_append, List.nil_append]
      rw [parseStringBody_esc_n, ih rest]
    rw [Bool.not_eq_true] at h3
    by_cases h4 : (c == '\r') = true
    · have hc := eq_of_beq h4
      subst hc
      rw [show escChar '\r' = ['\\', 'r'] from rfl]
      simp only [List.cons_append, List.nil_append]
      rw [parseStringBody_esc_r, ih rest]
    rw [Bool.not_eq_true] at h4
    by_cases h5 : (c == '\t') = true
    · have hc := eq_of_beq h5
      subst hc
      rw [show escChar '\t' = ['\\', 't'] from rfl]
      simp only [List.cons_append, List.nil_append]
      rw [parseStringBody_esc_t, ih rest]
    rw [Bool.not_eq_true] at h5
    by_cases h6 : (c.toNat == 8) = true
    · have ht : c.toNat = 8 := eq_of_beq h6
      have hc : c = Char.ofNat 8 := by rw [← ht, Char.ofNat_toNat]
      subst hc
      rw [show escChar (Char.ofNat 8) = ['\\', 'b'] from rfl]
      simp only [List.cons_append, List.nil_append]
      rw [parseStringBody_esc_b, ih rest]
    rw [Bool.not_eq_true] at h6
    by_cases h7 : (c.toNat == 12) = true
    · have ht : c.toNat = 12 := eq_of_beq h7
      have hc : c = Char.ofNat 12 := by rw [← ht, Char.ofNat_toNat]
      subst hc
      rw [show escChar (Char.ofNat 12) = ['\\', 'f'] from rfl]
      simp only [List.cons_append, List.nil_append]
      rw [parseStringBody_esc_f, ih rest]
    rw [Bool.not_eq_true] at h7
    by_cases h8 : c.toNat < 32
    · rw [escChar_control h1 h2 h3 h4 h5 h6 h7 h8]
      simp only [List.cons_append, List.nil_append]
      rw [parseStringBody_esc_u (hexDigit (c.toNat / 16)) (hexDigit (c.toNat % 16))
        (c.toNat / 16) (c.toNat % 16)
        (hexDigitVal_hexDigit _ (by omega))
        (hexDigitVal_hexDigit _ (Nat.mod_lt _ (by omega)))]
      rw [ih rest]
      have hv : c.toNat / 16 * 16 + c.toNat % 16 = c.toNat := by omega
      rw [hv, Char.ofNat_toNat]
    · rw [escChar_verbatim h1 h2 h3 h4 h5 h6 h7 h8]
      rw [List.singleton_append]
      rw [parseStringBody_other h1 h2, ih rest]

theorem parseVal_succ (fuel : Nat) (cs : List Char) :
    parseVal (fuel + 1) cs
      = match skipWs cs with
        | 'n' :: 'u' :: 'l' :: 'l' :: r => some (.null, r)
        | 't' :: 'r' :: 'u' :: 'e' :: r => some (.bool true, r)
        | 'f' :: 'a' :: 'l' :: 's' :: 'e' :: r => some (.bool false, r)
        | '"' :: r =>
          match parseStringBody r with
          | some (s, r1) => some (.str (String.mk s), r1)
          | none => none
        | '[' :: r =>
          match skipWs r with
          | ']' :: r1 => some (.arr [], r1)
          | r1 =>
            match parseItems fuel r1 with
            | some (xs, r2) => some (.arr xs, r2)
            | none => none
        | '{' :: r =>
          match skipWs r with
          | '}' :: r1 => some (.obj [], r1)
          | r1 =>
            match parseMembers fuel r1 with
            | some (ms, r2) => some (.obj ms, r2)
            | none => none
        | '-' :: c :: r =>
          if isDigitChar c then
            some (.num (-((parseDigitsLoop (c.toNat - 48) r).1 : Int)),
              (parseDigitsLoop (c.toNat - 48) r).2)
          else none
        | c :: r =>
          if isDigitChar c then
            some (.num ((parseDigitsLoop (c.toNat - 48) r).1 : Int),
              (parseDigitsLoop (c.toNat - 48) r).2)
          else none
        | [] => none := rfl

theorem parseVal_leading_ws (fuel : Nat) (pre l : List Char)
    (h : ∀ c ∈ pre, isWs c = true) :
    parseVal fuel (pre ++ l) = parseVal fuel l := by
  cases fuel with
  | zero => rfl
  | succ fuel => rw [parseVal_succ, parseVal_succ, skipWs_allWs h]

theorem parseVal_str_arm (fuel : Nat) (z : List Char) :
    parseVal (fuel + 1) ('"' :: z)
      = match parseStringBody z with
        | some (s, r1) => some (.str (String.mk s), r1)
        | none => none := rfl

theorem parseVal_arr_arm (fuel : Nat) (z : List Char) :
    parseVal (fuel + 1) ('[' :: z)
      = match skipWs z with
        | ']' :: r1 => some (.arr [], r1)
        | r1 =>
          match parseItems fuel r1 with
          | some (xs, r2) => some (.arr xs, r2)
          | none => none := rfl

theorem parseVal_obj_arm (fuel : Nat) (z : List Char) :
    parseVal (fuel + 1) ('{' :: z)
      = match skipWs z with
        | '}' :: r1 => some (.obj [], r1)
        | r1 =>
          match parseMembers fuel r1 with
          | some (ms, r2) => some (.obj ms, r2)
          | none => none := rfl

theorem parseVal_digit_arm (fuel : Nat) {c : Char} (r : List Char)
    (h : isDigitChar c = true) :
    parseVal (fuel + 1) (c :: r)
      = some (.num ((parseDigitsLoop (c.toNat - 48) r).1 : Int),
          (parseDigitsLoop (c.toNat - 48) r).2) := by
  have ht : 48 ≤ c.toNat ∧ c.toNat ≤ 57 := by
    simpa [isDigitChar, Bool.and_eq_true, decide_eq_true_eq] using h
  obtain ⟨t, h1, h2, rfl⟩ : ∃ t, 48 ≤ t ∧ t ≤ 57 ∧ c = Char.ofNat t :=
    ⟨c.toNat, ht.1, ht.2, (Char.ofNat_toNat c).symm⟩
  interval_cases t <;> rfl

theorem parseVal_neg_arm (fuel : Nat) {c : Char} (r : List Char)
    (h : isDigitChar c = true) :
    parseVal (fuel + 1) ('-' :: c :: r)
      = some (.num (-((parseDigitsLoop (c.toNat - 48) r).1 : Int)),
          (parseDigitsLoop (c.toNat - 48) r).2) := by
  have ht : 48 ≤ c.toNat ∧ c.toNat ≤ 57 := by
    simpa [isDigitChar, Bool.and_eq_true, decide_eq_true_eq] using h
  obtain ⟨t, h1, h2, rfl⟩ : ∃ t, 48 ≤ t ∧ t ≤ 57 ∧ c = Char.ofNat t :=
    ⟨c.toNat, ht.1, ht.2, (Char.ofNat_toNat c).symm⟩
  interval_cases t <;> rfl

theorem parseItems_succ (fuel : Nat) (cs : List Char) :
    parseItems (fuel + 1) cs
      = match parseVal fuel cs with
        | none => none
        | some (v, r1) =>
          match skipWs r1 with
          | ',' :: r2 =>
            match parseItems fuel r2 with
            | some (vs, r3) => some (v :: vs, r3)
            | none => none
          | ']' :: r2 => some ([v], r2)
          | _ => none := rfl

theorem parseMembers_quote (fuel : Nat) (r0 : List Char) :
    parseMembers (fuel + 1) ('"' :: r0)
      = match parseStringBody r0 with
        | none => none
        | some (kl, r1) =>
          match skipWs r1 with
          | ':' :: r2 =>
            match parseVal fuel r2 with
            | none => none
            | some (v, r3) =>
              match skipWs r3 with
              | ',' :: r4 =>
                match parseMembers fuel (skipWs r4) with
                | some (ms, r5) => some ((String.mk kl, v) :: ms, r5)
                | none => none
              | '}' :: r4 => some ([(String.mk kl, v)], r4)
              | _ => none
          | _ => none := rfl

theorem nodesList_pos (xs : List Json) : 1 ≤ nodesList xs := by
  cases xs with
  | nil => exact le_refl 1
  | cons x xs =>
    have : nodesList (x :: xs) = 1 + nodes x + nodesList xs := rfl
    omega

theorem nodesMembers_pos (ms : List (String × Json)) : 1 ≤ nodesMembers ms := by
  cases ms with
  | nil => exact le_refl 1
  | cons m ms =>
    obtain ⟨k, v⟩ := m
    have : nodesMembers ((k, v) :: ms) = 1 + nodes v + nodesMembers ms := rfl
    omega

theorem dump_head (d : Nat) (v : Json) :
    ∃ c t, dumpVal d v = c :: t ∧ isWs c = false ∧ c ≠ ']' ∧ c ≠ '}' := by
  cases v with
  | null => exact ⟨'n', ['u', 'l', 'l'], rfl, rfl, by decide, by decide⟩
  | bool b =>
    cases b
    · exact ⟨'f', ['a', 'l', 's', 'e'], rfl, rfl, by decide, by decide⟩
    · exact ⟨'t', ['r', 'u', 'e'], rfl, rfl, by decide, by decide⟩
  | num n =>
    by_cases hneg : n < 0
    · refine ⟨'-', natToDigits n.natAbs, ?_, rfl, by decide, by decide⟩
      show intToChars n = _
      unfold intToChars
      rw [if_pos hneg]
    · obtain ⟨m, t, hm, heq⟩ := natToDigitsGo_head n.toNat n.toNat
      refine ⟨digitChar m, t, ?_, isWs_digitChar m hm,
        (digitChar_ne_brackets m hm).1, (digitChar_ne_brackets m hm).2⟩
      show intToChars n = _
      unfold intToChars
      rw [if_neg hneg]
      exact heq
  | str s =>
    exact ⟨'"', escList s.data ++ ['"'], rfl, rfl, by decide, by decide⟩
  | arr xs =>
    cases xs with
    | nil => exact ⟨'[', [']'], rfl, rfl, by decide, by decide⟩
    | cons x xs =>
      exact ⟨'[', '\n' :: (indentChars (d + 1) ++ dumpItems (d + 1) d (x :: xs)),
        rfl, rfl, by decide, by decide⟩
  | obj ms =>
    cases ms with
    | nil => exact ⟨'{', ['}'], rfl, rfl, by decide, by decide⟩
    | cons m ms =>
      exact ⟨'{', '\n' :: (indentChars (d + 1) ++ dumpMembers (d + 1) d (m :: ms)),
        rfl, rfl, by decide, by decide⟩

theorem dumpItems_head (d dc : Nat) (x : Json) (xs : List Json) :
    ∃ c t, dumpItems d dc (x :: xs) = c :: t ∧ isWs c = false ∧ c ≠ ']' ∧ c ≠ '}' := by
  obtain ⟨c, t, heq, hws, hb1, hb2⟩ := dump_head d x
  cases xs with
  | nil =>
    refine ⟨c, t ++ ('\n' :: (indentChars dc ++ [']'])), ?_, hws, hb1, hb2⟩
    show dumpVal d x ++ ('\n' :: (indentChars dc ++ [']'])) = _
    rw [heq, List.cons_append]
  | cons y ys =>
    refine ⟨c, t ++ (',' :: '\n' :: (indentChars d ++ dumpItems d dc (y :: ys))),
      ?_, hws, hb1, hb2⟩
    show dumpVal d x ++ (',' :: '\n' :: (indentChars d ++ dumpItems d dc (y :: ys))) = _
    rw [heq, List.cons_append]

theorem dumpMembers_head (d dc : Nat) (m : String × Json) (ms : List (String × Json)) :
    ∃ t, dumpMembers d dc (m :: ms) = '"' :: t := by
  obtain ⟨k, v⟩ := m
  cases ms with
  | nil =>
    refine ⟨(escList k.data ++ ['"'])
      ++ (':' :: ' ' :: (dumpVal d v ++ '\n' :: (indentChars dc ++ ['}']))), ?_⟩
    show strChars k ++ (':' :: ' ' :: (dumpVal d v ++ '\n' :: (indentChars dc ++ ['}']))) = _
    unfold strChars
    rw [List.cons_append]
  | cons m2 ms2 =>
    refine ⟨(escList k.data ++ ['"'])
      ++ (':' :: ' ' :: (dumpVal d v ++ ',' :: '\n'
        :: (indentChars d ++ dumpMembers d dc (m2 :: ms2)))), ?_⟩
    show strChars k ++ (':' :: ' ' :: (dumpVal d v ++ ',' :: '\n'
      :: (indentChars d ++ dumpMembers d dc (m2 :: ms2)))) = _
    unfold strChars
    rw [List.cons_append]

theorem parseItems_close (fuel : Nat) {cs r1 r2 : List Char} {v : Json}
    (hv : parseVal fuel cs = some (v, r1)) (hsk : skipWs r1 = ']' :: r2) :
    parseItems (fuel + 1) cs = some ([v], r2) := by
  rw [parseItems_succ, hv]
  show (match skipWs r1 with
    | ',' :: r2' =>
      match parseItems fuel r2' with
      | some (vs, r3) => some (v :: vs, r3)
      | none => none
    | ']' :: r2' => some ([v], r2')
    | _ => none) = some ([v], r2)
  rw [hsk]
  rfl

theorem parseItems_continue (fuel : Nat) {cs r1 r2 r3 : List Char} {v : Json}
    {vs : List Json}
    (hv : parseVal fuel cs = some (v, r1)) (hsk : skipWs r1 = ',' :: r2)
    (hrest : parseItems fuel r2 = some (vs, r3)) :
    parseItems (fuel + 1) cs = some (v :: vs, r3) := by
  rw [parseItems_succ, hv]
  show (match skipWs r1 with
    | ',' :: r2' =>
      match parseItems fuel r2' with
      | some (vs', r3') => some (v :: vs', r3')
      | none => none
    | ']' :: r2' => some ([v], r2')
    | _ => none) = some (v :: vs, r3)
  rw [hsk]
  show (match parseItems fuel r2 with
    | some (vs', r3') => some (v :: vs', r3')
    | none => none) = some (v :: vs, r3)
  rw [hrest]

theorem parseMembers_close (fuel : Nat) {r0 kl r1 r2 r3 r4 : List Char} {v : Json}
    (hs : parseStringBody r0 = some (kl, r1)) (hsk1 : skipWs r1 = ':' :: r2)
    (hv : parseVal fuel r2 = some (v, r3)) (hsk2 : skipWs r3 = '}' :: r4) :
    parseMembers (fuel + 1) ('"' :: r0) = some ([(String.mk kl, v)], r4) := by
  rw [parseMembers_quote, hs]
  show (match skipWs r1 with
    | ':' :: r2' =>
      match parseVal fuel r2' with
      | none => none
      | some (v', r3') =>
        match skipWs r3' with
        | ',' :: r4' =>
          match parseMembers fuel (skipWs r4') with
          | some (ms, r5) => some ((String.mk kl, v') :: ms, r5)
          | none => none
        | '}' :: r4' => some ([(String.mk kl, v')], r4')
        | _ => none
    | _ => none) = some ([(String.mk kl, v)], r4)
  rw [hsk1]
  show (match parseVal fuel r2 with
    | none => none
    | some (v', r3') =>
      match skipWs r3' with
      | ',' :: r4' =>
        match parseMembers fuel (skipWs r4') with
        | some (ms, r5) => some ((String.mk kl, v') :: ms, r5)
        | none => none
      | '}' :: r4' => some ([(String.mk kl, v')], r4')
      | _ => none) = some ([(String.mk kl, v)], r4)
  rw [hv]
  show (match skipWs r3 with
    | ',' :: r4' =>
      match parseMembers fuel (skipWs r4') with
      | some (ms, r5) => some ((String.mk kl, v) :: ms, r5)
      | none => none
    | '}' :: r4' => some ([(String.mk kl, v)], r4')
    | _ => none) = some ([(String.mk kl, v)], r4)
  rw [hsk2]
  rfl

theorem parseMembers_continue (fuel : Nat) {r0 kl r1 r2 r3 r4 r5 : List Char}
    {v : Json} {ms : List (String × Json)}
    (hs : parseStringBody r0 = some (kl, r1)) (hsk1 : skipWs r1 = ':' :: r2)
    (hv : parseVal fuel r2 = some (v, r3)) (hsk2 : skipWs r3 = ',' :: r4)
    (hrest : parseMembers fuel (skipWs r4) = some (ms, r5)) :
    parseMembers (fuel + 1) ('"' :: r0) = some ((String.mk kl, v) :: ms, r5) := by
  rw [parseMembers_quote, hs]
  show (match skipWs r1 with
    | ':' :: r2' =>
      match parseVal fuel r2' with
      | none => none
      | some (v', r3') =>
        match skipWs r3' with
        | ',' :: r4' =>
          match parseMembers fuel (skipWs r4') with
          | some (ms', r5') => some ((String.mk kl, v') :: ms', r5')
          | none => none
        | '}' :: r4' => some ([(String.mk kl, v')], r4')
        | _ => none
    | _ => none) = some ((String.mk kl, v) :: ms, r5)
  rw [hsk1]
  show (match parseVal fuel r2 with
    | none => none
    | some (v', r3') =>
      match skipWs r3' with
      | ',' :: r4' =>
        match parseMembers fuel (skipWs r4') with
        | some (ms', r5') => some ((String.mk kl, v') :: ms', r5')
        | none => none
      | '}' :: r4' => some ([(String.mk kl, v')], r4')
      | _ => none) = some ((String.mk kl, v) :: ms, r5)
  rw [hv]
  show (match skipWs r3 with
    | ',' :: r4' =>
      match parseMembers fuel (skipWs r4') with
      | some (ms', r5') => some ((String.mk kl, v) :: ms', r5')
      | none => none
    | '}' :: r4' => some ([(String.mk kl, v)], r4')
    | _ => none) = some ((String.mk kl, v) :: ms, r5)
  rw [hsk2]
  show (match parseMembers fuel (skipWs r4) with
    | some (ms', r5') => some ((String.mk kl, v) :: ms', r5')
    | none => none) = some ((String.mk kl, v) :: ms, r5)
  rw [hrest]

/-- Serialize-then-parse identity, by induction on the parser fuel: a value,
the items of a non-empty array (with an all-whitespace prefix), and the
members of a non-empty object are each read back exactly. -/
theorem parse_dump : ∀ fuel : Nat,
    (∀ v d rest, nodes v < fuel → startsWithDigit rest = false →
      parseVal fuel (dumpVal d v ++ rest) = some (v, rest)) ∧
    (∀ xs d dc pre rest, xs ≠ [] → nodesList xs < fuel →
      (∀ c ∈ pre, isWs c = true) →
      parseItems fuel (pre ++ (dumpItems d dc xs ++ rest)) = some (xs, rest)) ∧
    (∀ ms d dc rest, ms ≠ [] → nodesMembers ms < fuel →
      parseMembers fuel (dumpMembers d dc ms ++ rest) = some (ms, rest)) := by
  intro fuel
  induction fuel with
  | zero =>
    refine ⟨fun v d rest hn _ => absurd hn (by omega),
      fun xs d dc pre rest _ hn _ => absurd hn (by omega),
      fun ms d dc rest _ hn => absurd hn (by omega)⟩
  | succ fuel ih =>
    obtain ⟨ihv, ihi, ihm⟩ := ih
    refine ⟨?_, ?_, ?_⟩
    · -- values
      intro v d rest hn hrest
      cases v with
      | null => rfl
      | bool b => cases b <;> rfl
      | num n =>
        by_cases hneg : n < 0
        · have hd : dumpVal d (.num n) = '-' :: natToDigits n.natAbs := by
            show intToChars n = _
            unfold intToChars
            rw [if_pos hneg]
          rw [hd]
          obtain ⟨m, t, hm, heq, hloop⟩ := digits_split n.natAbs hrest
          rw [heq]
          rw [show (('-' : Char) :: (digitChar m :: t)) ++ rest
            = '-' :: digitChar m :: (t ++ rest) from rfl]
          rw [parseVal_neg_arm fuel (t ++ rest) (isDigitChar_digitChar m hm)]
          rw [hloop]
          show some (Json.num (-((n.natAbs : Nat) : Int)), rest) = some (Json.num n, rest)
          have hiv : -(((n.natAbs : Nat) : Int)) = n := by omega
          rw [hiv]
        · have hd : dumpVal d (.num n) = natToDigits n.toNat := by
            show intToChars n = _
            unfold intToChars
            rw [if_neg hneg]
          rw [hd]
          obtain ⟨m, t, hm, heq, hloop⟩ := digits_split n.toNat hrest
          rw [heq]
          rw [List.cons_append]
          rw [parseVal_digit_arm fuel (t ++ rest) (isDigitChar_digitChar m hm)]
          rw [hloop]
          show some (Json.num ((n.toNat : Nat) : Int), rest) = some (Json.num n, rest)
          have hiv : ((n.toNat : Nat) : Int) = n := by omega
          rw [hiv]
      | str s =>
        obtain ⟨sd⟩ := s
        have hd : dumpVal d (.str (String.mk sd)) ++ rest
            = '"' :: (escList sd ++ ('"' :: rest)) := by
          show strChars (String.mk sd) ++ rest = _
          unfold strChars
          rw [show (String.mk sd).data = sd from rfl]
          simp [List.append_assoc]
        rw [hd, parseVal_str_arm, parseStringBody_escList sd rest]
      | arr xs =>
        cases xs with
        | nil => rfl
        | cons x xs =>
          have hd : dumpVal d (.arr (x :: xs)) ++ rest
              = '[' :: ('\n' :: (indentChars (d + 1)
                ++ (dumpItems (d + 1) d (x :: xs) ++ rest))) := by
            show ('[' :: '\n' :: (indentChars (d + 1)
              ++ dumpItems (d + 1) d (x :: xs))) ++ rest = _
            simp [List.append_assoc]
          rw [hd, parseVal_arr_arm,
            skipWs_cons_of_ws (show isWs '\n' = true from rfl), skipWs_indent]
          obtain ⟨c, t, heq, hws, hb1, hb2⟩ := dumpItems_head (d + 1) d x xs
          rw [heq, List.cons_append, skipWs_cons_of_not_ws hws]
          split
          · next r1 hr =>
            injection hr with hc _
            exact absurd hc hb1
          · next hr =>
            rw [← List.cons_append, ← heq]
            have harith : nodesList (x :: xs) < fuel := by
              have h1 : nodes (.arr (x :: xs)) = 1 + nodesList (x :: xs) := rfl
              omega
            have hIt := ihi (x :: xs) (d + 1) d [] rest
              (List.cons_ne_nil x xs) harith (fun c' hc' => absurd hc' (List.not_mem_nil c'))
            rw [List.nil_append] at hIt
            rw [hIt]
      | obj ms =>
        cases ms with
        | nil => rfl
        | cons m ms =>
          have hd : dumpVal d (.obj (m :: ms)) ++ rest
              = '{' :: ('\n' :: (indentChars (d + 1)
                ++ (dumpMembers (d + 1) d (m :: ms) ++ rest))) := by
            show ('{' :: '\n' :: (indentChars (d + 1)
              ++ dumpMembers (d + 1) d (m :: ms))) ++ rest = _
            simp [List.append_assoc]
          rw [hd, parseVal_obj_arm,
            skipWs_cons_of_ws (show isWs '\n' = true from rfl), skipWs_indent]
          obtain ⟨t, heq⟩ := dumpMembers_head (d + 1) d m ms
          rw [heq, List.cons_append,
            skipWs_cons_of_not_ws (show isWs '"' = false from rfl)]
          split
          · next r1 hr =>
            injection hr with hc _
            exact absurd hc (by decide)
          · next hr =>
            rw [← List.cons_append, ← heq]
            have harith : nodesMembers (m :: ms) < fuel := by
              have h1 : nodes (.obj (m :: ms)) = 1 + nodesMembers (m :: ms) := rfl
              omega
            rw [ihm (m :: ms) (d + 1) d rest (List.cons_ne_nil m ms) harith]
    · -- array items
      intro xs d dc pre rest hne hn hpre
      cases xs with
      | nil => exact absurd rfl hne
      | cons x xs =>
        cases xs with
        | nil =>
          have h1 : nodesList [x] = 1 + nodes x + 1 := rfl
          rw [h1] at hn
          have hd : pre ++ (dumpItems d dc [x] ++ rest)
              = pre ++ (dumpVal d x ++ ('\n' :: (indentChars dc ++ (']' :: rest)))) := by
            show pre ++ ((dumpVal d x ++ ('\n' :: (indentChars dc ++ [']']))) ++ rest) = _
            simp [List.append_assoc]
          rw [hd]
          have hv : parseVal fuel (pre ++ (dumpVal d x
              ++ ('\n' :: (indentChars dc ++ (']' :: rest)))))
              = some (x, '\n' :: (indentChars dc ++ (']' :: rest))) := by
            rw [parseVal_leading_ws fuel pre _ hpre]
            exact ihv x d _ (by omega) rfl
          have hsk : skipWs ('\n' :: (indentChars dc ++ (']' :: rest))) = ']' :: rest := by
            rw [skipWs_cons_of_ws (show isWs '\n' = true from rfl), skipWs_indent,
              skipWs_cons_of_not_ws (show isWs ']' = false from rfl)]
          exact parseItems_close fuel hv hsk
        | cons y ys =>
          have h1 : nodesList (x :: y :: ys) = 1 + nodes x + nodesList (y :: ys) := rfl
          rw [h1] at hn
          have hyl := nodesList_pos (y :: ys)
          have hd : pre ++ (dumpItems d dc (x :: y :: ys) ++ rest)
              = pre ++ (dumpVal d x ++ (',' :: ('\n' :: (indentChars d
                ++ (dumpItems d dc (y :: ys) ++ rest))))) := by
            show pre ++ ((dumpVal d x ++ (',' :: '\n' :: (indentChars d
              ++ dumpItems d dc (y :: ys)))) ++ rest) = _
            simp [List.append_assoc]
          rw [hd]
          have hv : parseVal fuel (pre ++ (dumpVal d x ++ (',' :: ('\n' :: (indentChars d
              ++ (dumpItems d dc (y :: ys) ++ rest))))))
              = some (x, ',' :: ('\n' :: (indentChars d
                ++ (dumpItems d dc (y :: ys) ++ rest)))) := by
            rw [parseVal_leading_ws fuel pre _ hpre]
            exact ihv x d _ (by omega) rfl
          have hsk : skipWs (',' :: ('\n' :: (indentChars d
              ++ (dumpItems d dc (y :: ys) ++ rest))))
              = ',' :: ('\n' :: (indentChars d ++ (dumpItems d dc (y :: ys) ++ rest))) :=
            skipWs_cons_of_not_ws (show isWs ',' = false from rfl) _
          have hrest2 : parseItems fuel ('\n' :: (indentChars d
              ++ (dumpItems d dc (y :: ys) ++ rest))) = some (y :: ys, rest) := by
            have hIt := ihi (y :: ys) d dc ('\n' :: indentChars d) rest
              (List.cons_ne_nil y ys) (by omega) ?_
            · rw [List.cons_append] at hIt
              exact hIt
            · intro c' hc'
              rcases List.mem_cons.mp hc' with h | h
              · subst h; rfl
              · rw [List.eq_of_mem_replicate h]
                rfl
          exact parseItems_continue fuel hv hsk hrest2
    · -- object members
      intro ms d dc rest hne hn
      cases ms with
      | nil => exact absurd rfl hne
      | cons m ms =>
        obtain ⟨k, v⟩ := m
        obtain ⟨kd⟩ := k
        cases ms with
        | nil =>
          have h1 : nodesMembers [(String.mk kd, v)] = 1 + nodes v + 1 := rfl
          rw [h1] at hn
          have hd : dumpMembers d dc [(String.mk kd, v)] ++ rest
              = '"' :: (escList kd ++ ('"' :: (':' :: (' ' :: (dumpVal d v
                ++ ('\n' :: (indentChars dc ++ ('}' :: rest)))))))) := by
            show (strChars (String.mk kd) ++ (':' :: ' ' :: (dumpVal d v
              ++ '\n' :: (indentChars dc ++ ['}'])))) ++ rest = _
            unfold strChars
            rw [show (String.mk kd).data = kd from rfl]
            simp [List.append_assoc]
          rw [hd]
          have hv : parseVal fuel (' ' :: (dumpVal d v
              ++ ('\n' :: (indentChars dc ++ ('}' :: rest)))))
              = some (v, '\n' :: (indentChars dc ++ ('}' :: rest))) := by
            rw [show (' ' :: (dumpVal d v ++ ('\n' :: (indentChars dc ++ ('}' :: rest)))))
              = [' '] ++ (dumpVal d v ++ ('\n' :: (indentChars dc ++ ('}' :: rest)))) from rfl]
            rw [parseVal_leading_ws fuel [' '] _
              (fun c' hc' => by rw [List.eq_of_mem_singleton hc']; rfl)]
            exact ihv v d _ (by omega) rfl
          have hsk2 : skipWs ('\n' :: (indentChars dc ++ ('}' :: rest))) = '}' :: rest := by
            rw [skipWs_cons_of_ws (show isWs '\n' = true from rfl), skipWs_indent,
              skipWs_cons_of_not_ws (show isWs '}' = false from rfl)]
          exact parseMembers_close fuel (parseStringBody_escList kd _)
            (skipWs_cons_of_not_ws (show isWs ':' = false from rfl) _) hv hsk2
        | cons m2 ms2 =>
          have h1 : nodesMembers ((String.mk kd, v) :: m2 :: ms2)
              = 1 + nodes v + nodesMembers (m2 :: ms2) := rfl
          rw [h1] at hn
          have hm2 := nodesMembers_pos (m2 :: ms2)
          have hd : dumpMembers d dc ((String.mk kd, v) :: m2 :: ms2) ++ rest
              = '"' :: (escList kd ++ ('"' :: (':' :: (' ' :: (dumpVal d v
                ++ (',' :: ('\n' :: (indentChars d
                  ++ (dumpMembers d dc (m2 :: ms2) ++ rest))))))))) := by
            show (strChars (String.mk kd) ++ (':' :: ' ' :: (dumpVal d v
              ++ ',' :: '\n' :: (indentChars d ++ dumpMembers d dc (m2 :: ms2))))) ++ rest = _
            unfold strChars
            rw [show (String.mk kd).data = kd from rfl]
            simp [List.append_assoc]
          rw [hd]
          have hv : parseVal fuel (' ' :: (dumpVal d v ++ (',' :: ('\n' :: (indentChars d
              ++ (dumpMembers d dc (m2 :: ms2) ++ rest))))))
              = some (v, ',' :: ('\n' :: (indentChars d
                ++ (dumpMembers d dc (m2 :: ms2) ++ rest)))) := by
            rw [show (' ' :: (dumpVal d v ++ (',' :: ('\n' :: (indentChars d
                ++ (dumpMembers d dc (m2 :: ms2) ++ rest))))))
              = [' '] ++ (dumpVal d v ++ (',' :: ('\n' :: (indentChars d
                ++ (dumpMembers d dc (m2 :: ms2) ++ rest))))) from rfl]
            rw [parseVal_leading_ws fuel [' '] _
              (fun c' hc' => by rw [List.eq_of_mem_singleton hc']; rfl)]
            exact ihv v d _ (by omega) rfl
          have hskr : skipWs ('\n' :: (indentChars d
              ++ (dumpMembers d dc (m2 :: ms2) ++ rest)))
              = dumpMembers d dc (m2 :: ms2) ++ rest := by
            obtain ⟨t, heq⟩ := dumpMembers_head d dc m2 ms2
            rw [skipWs_cons_of_ws (show isWs '\n' = true from rfl), skipWs_indent,
              heq, List.cons_append,
              skipWs_cons_of_not_ws (show isWs '"' = false from rfl), ← List.cons_append,
              ← heq]
          have hrest2 : parseMembers fuel (skipWs ('\n' :: (indentChars d
              ++ (dumpMembers d dc (m2 :: ms2) ++ rest)))) = some (m2 :: ms2, rest) := by
            rw [hskr]
            exact ihm (m2 :: ms2) d dc rest (List.cons_ne_nil m2 ms2) (by omega)
          exact parseMembers_continue fuel (parseStringBody_escList kd _)
            (skipWs_cons_of_not_ws (show isWs ':' = false from rfl) _) hv
            (skipWs_cons_of_not_ws (show isWs ',' = false from rfl) _) hrest2

theorem Json.inductionOn {P : Json → Prop}
    (hnull : P .null) (hbool : ∀ b, P (.bool b)) (hnum : ∀ n, P (.num n))
    (hstr : ∀ s, P (.str s))
    (harr : ∀ xs, (∀ x ∈ xs, P x) → P (.arr xs))
    (hobj : ∀ ms, (∀ kv ∈ ms, P kv.2) → P (.obj ms)) : ∀ v, P v
  | .null => hnull
  | .bool b => hbool b
  | .num n => hnum n
  | .str s => hstr s
  | .arr xs => harr xs (fun x hx =>
      Json.inductionOn hnull hbool hnum hstr harr hobj x)
  | .obj ms => hobj ms (fun kv hkv =>
      Json.inductionOn hnull hbool hnum hstr harr hobj kv.2)
termination_by v => sizeOf v
decreasing_by
  all_goals first
    | (have h := List.sizeOf_lt_of_mem hx
       simp only [Json.arr.sizeOf_spec]
       omega)
    | (have h1 := List.sizeOf_lt_of_mem hkv
       obtain ⟨a, b⟩ := kv
       simp only [Json.obj.sizeOf_spec, Prod.mk.sizeOf_spec] at h1 ⊢
       omega)

theorem natToDigits_ne_nil (n : Nat) : natToDigits n ≠ [] := by
  obtain ⟨m, t, hm, heq⟩ := natToDigitsGo_head n n
  rw [show natToDigits n = natToDigitsGo (n + 1) n from rfl, heq]
  simp

theorem nodesList_le_dumpItems (d dc : Nat) : ∀ (xs : List Json),
    (∀ x ∈ xs, ∀ d', nodes x ≤ (dumpVal d' x).length) →
    nodesList xs ≤ (dumpItems d dc xs).length
  | [], _ => le_refl 1
  | [x], ihx => by
    have hx := ihx x (by simp) d
    have h1 : nodesList [x] = 1 + nodes x + 1 := rfl
    have h2 : dumpItems d dc [x] = dumpVal d x ++ '\n' :: (indentChars dc ++ [']']) := rfl
    rw [h1, h2]
    simp only [List.length_append, List.length_cons]
    omega
  | x :: y :: ys, ihx => by
    have hx := ihx x (by simp) d
    have hys := nodesList_le_dumpItems d dc (y :: ys)
      (fun z hz d' => ihx z (by simp [hz]) d')
    have h1 : nodesList (x :: y :: ys) = 1 + nodes x + nodesList (y :: ys) := rfl
    have h2 : dumpItems d dc (x :: y :: ys)
        = dumpVal d x ++ ',' :: '\n' :: (indentChars d ++ dumpItems d dc (y :: ys)) := rfl
    rw [h1, h2]
    simp only [List.length_append, List.length_cons]
    omega

theorem nodesMembers_le_dumpMembers (d dc : Nat) : ∀ (ms : List (String × Json)),
    (∀ kv ∈ ms, ∀ d', nodes kv.2 ≤ (dumpVal d' kv.2).length) →
    nodesMembers ms ≤ (dumpMembers d dc ms).length
  | [], _ => le_refl 1
  | [(k, v)], ihx => by
    have hv : nodes v ≤ (dumpVal d v).length := ihx (k, v) (by simp) d
    have h1 : nodesMembers [(k, v)] = 1 + nodes v + 1 := rfl
    have h2 : dumpMembers d dc [(k, v)]
        = strChars k ++ ':' :: ' ' :: (dumpVal d v ++ '\n' :: (indentChars dc ++ ['}'])) := rfl
    rw [h1, h2]
    simp only [List.length_append, List.length_cons]
    omega
  | (k, v) :: m2 :: ms2, ihx => by
    have hv : nodes v ≤ (dumpVal d v).length := ihx (k, v) (by simp) d
    have hms := nodesMembers_le_dumpMembers d dc (m2 :: ms2)
      (fun kv hkv d' => ihx kv (by simp [hkv]) d')
    have h1 : nodesMembers ((k, v) :: m2 :: ms2)
        = 1 + nodes v + nodesMembers (m2 :: ms2) := rfl
    have h2 : dumpMembers d dc ((k, v) :: m2 :: ms2)
        = strChars k ++ ':' :: ' ' :: (dumpVal d v ++ ',' :: '\n'
          :: (indentChars d ++ dumpMembers d dc (m2 :: ms2))) := rfl
    rw [h1, h2]
    simp only [List.length_append, List.length_cons]
    omega

theorem nodes_le_dumpVal : ∀ v : Json, ∀ d : Nat, nodes v ≤ (dumpVal d v).length := by
  intro v
  induction v using Json.inductionOn with
  | hnull => intro d; show 1 ≤ 4; omega
  | hbool b =>
    intro d
    cases b
    · show 1 ≤ 5; omega
    · show 1 ≤ 4; omega
  | hnum n =>
    intro d
    show 1 ≤ (intToChars n).length
    unfold intToChars
    by_cases h : n < 0
    · rw [if_pos h]
      simp
    · rw [if_neg h]
      have := natToDigits_ne_nil n.toNat
      cases hh : natToDigits n.toNat with
      | nil => exact absurd hh this
      | cons c t => simp [hh]
  | hstr s =>
    intro d
    show 1 ≤ (strChars s).length
    unfold strChars
    simp
  | harr xs ih =>
    intro d
    cases xs with
    | nil => exact le_refl 2
    | cons x xs =>
      have hit := nodesList_le_dumpItems (d + 1) d (x :: xs) (fun z hz d' => ih z hz d')
      have h1 : nodes (.arr (x :: xs)) = 1 + nodesList (x :: xs) := rfl
      have h2 : dumpVal d (.arr (x :: xs))
          = '[' :: '\n' :: (indentChars (d + 1) ++ dumpItems (d + 1) d (x :: xs)) := rfl
      rw [h1, h2]
      simp only [List.length_append, List.length_cons]
      omega
  | hobj ms ih =>
    intro d
    cases ms with
    | nil => exact le_refl 2
    | cons m ms =>
      have hit := nodesMembers_le_dumpMembers (d + 1) d (m :: ms) (fun kv hkv d' => ih kv hkv d')
      have h1 : nodes (.obj (m :: ms)) = 1 + nodesMembers (m :: ms) := rfl
      have h2 : dumpVal d (.obj (m :: ms))
          = '{' :: '\n' :: (indentChars (d + 1) ++ dumpMembers (d + 1) d (m :: ms)) := rfl
      rw [h1, h2]
      simp only [List.length_append, List.length_cons]
      omega

/-- `json.load` inverts `json.dumps(..., ensure_ascii=False, indent=2)`. -/
theorem parseJson_jsonDumps (v : Json) : parseJson (jsonDumps v) = some v := by
  have hle := nodes_le_dumpVal v 0
  have hv := (parse_dump ((dumpVal 0 v).length + 1)).1 v 0 [] (by omega) rfl
  rw [List.append_nil] at hv
  unfold parseJson jsonDumps
  rw [show (String.mk (dumpVal 0 v)).length = (dumpVal 0 v).length from rfl]
  rw [show (String.mk (dumpVal 0 v)).data = dumpVal 0 v from rfl]
  rw [hv]
  rfl

/-- Claim C9: for every non-empty record list, the JSON export writes the
full ordered sequence as one JSON array (2-space indentation, non-ASCII
verbatim via `ensure_ascii=False`), and parsing the written file back yields
exactly the original in-memory sequence, order and values preserved. -/
theorem json_export_roundtrip (tweets : List Dict) (filename : String)
    (h : tweets ≠ []) :
    (save_to_json tweets filename).file
        = some (filename, jsonDumps (Json.arr (tweets.map Json.obj))) ∧
    parseJson (jsonDumps (Json.arr (tweets.map Json.obj)))
        = some (Json.arr (tweets.map Json.obj)) := by
  constructor
  · cases tweets with
    | nil => exact absurd rfl h
    | cons t ts => rfl
  · exact parseJson_jsonDumps _

/-- Claim C9 witness: the round trip at the concrete record list
`[{"a": 1}]`. -/
theorem json_export_roundtrip_witness :
    ([[("a", Json.num 1)]] : List Dict) ≠ [] ∧
    ((save_to_json [[("a", Json.num 1)]] "x.json").file
        = some ("x.json", jsonDumps (Json.arr (([[("a", Json.num 1)]] : List Dict).map Json.obj))) ∧
      parseJson (jsonDumps (Json.arr (([[("a", Json.num 1)]] : List Dict).map Json.obj)))
        = some (Json.arr (([[("a", Json.num 1)]] : List Dict).map Json.obj))) :=
  ⟨by simp, json_export_roundtrip [[("a", Json.num 1)]] "x.json" (by simp)⟩
